import Mathlib

/-!
Verification of the go-tcmu userspace SCSI target core against its
natural-language specification.  The Go sources are shallowly embedded:
byte buffers become `List Nat` (each element a byte value), the shared
memory-mapped region becomes a total function `Nat → Nat`, and the
imperative loops of the source become structural recursions.  All
multi-byte accesses into the shared region are little-endian, matching
the host-endian unsafe-pointer loads of `struct_access.go` on the
little-endian platform the offset profile in `offsets_32bit_pad.go`
targets.  Field offsets are those of that file (the only offset profile
present in the sources): `offLenOp=0, offCmdId=4, entReqRespOff=8,
offReqIovCnt=8, offReqCdbOff=24, offReqIov0Base=48, offReqIov0Len=52,
iovSize=8, offRespSCSIStatus=8, offRespSense=16`.
-/

namespace Tcmu

/-- Big-endian read of two bytes of a byte list at offset `i`
(`binary.BigEndian.Uint16(b[i:i+2])`). -/
def beRead2 (b : List Nat) (i : Nat) : Nat :=
  256 * b.getD i 0 + b.getD (i + 1) 0

/-- Big-endian read of four bytes at offset `i`
(`binary.BigEndian.Uint32(b[i:i+4])`). -/
def beRead4 (b : List Nat) (i : Nat) : Nat :=
  256 * (256 * (256 * b.getD i 0 + b.getD (i + 1) 0) + b.getD (i + 2) 0)
    + b.getD (i + 3) 0

/-- Big-endian read of eight bytes at offset `i`
(`binary.BigEndian.Uint64(b[i:i+8])`). -/
def beRead8 (b : List Nat) (i : Nat) : Nat :=
  have hi := beRead4 b i
  have lo := beRead4 b (i + 4)
  4294967296 * hi + lo

/-- Big-endian encoding of `x % 2^32` as four bytes
(`binary.BigEndian.PutUint32`). -/
def bePut4 (x : Nat) : List Nat :=
  [x / 16777216 % 256, x / 65536 % 256, x / 256 % 256, x % 256]

/-- Big-endian encoding of `x % 2^64` as eight bytes
(`binary.BigEndian.PutUint64`). -/
def bePut8 (x : Nat) : List Nat :=
  bePut4 (x / 4294967296) ++ bePut4 x

/-- Go `copy(dst[off:], src)` on a fixed-length byte list: overwrite `v`
starting at `off` with as much of `src` as fits; the length of `v` is
preserved. -/
def copyInto (v : List Nat) (off : Nat) (src : List Nat) : List Nat :=
  v.take off ++ src.take (v.length - off) ++ v.drop (off + src.length)

/-- Store one byte value at index `i` of a byte list (`buf[i] = x`). -/
def setAt (v : List Nat) (i : Nat) (x : Nat) : List Nat :=
  v.set i x

@[simp] theorem copyInto_length (v : List Nat) (off : Nat) (src : List Nat) :
    (copyInto v off src).length = v.length := by
  simp [copyInto]
  omega

@[simp] theorem setAt_length (v : List Nat) (i : Nat) (x : Nat) :
    (setAt v i x).length = v.length := by
  simp [setAt]

theorem getD_setAt (v : List Nat) (i j x : Nat) (hi : i < v.length) :
    (setAt v i x).getD j 0 = if j = i then x else v.getD j 0 := by
  rcases eq_or_ne j i with rfl | h
  · simp [setAt, List.getD_eq_getElem?_getD, List.getElem?_set_self, hi]
  · simp [setAt, List.getD_eq_getElem?_getD, List.getElem?_set_ne (Ne.symm h), h]

/-! ## The SCSICmd scatter-gather buffer (`scsi_handler.go`)

A decoded command carries `vecs` (a list of byte buffers that, in the
source, are slices into the mmap), a current vector index `vecoffset`
and an intra-vector cursor `offset`.  `SCSICmd.Write` and `SCSICmd.Read`
walk the vectors; both are embedded as structural recursions over the
list of vectors at and after the cursor. -/

structure SCSICmdM where
  id : Nat
  cdb : List Nat
  vecs : List (List Nat)
  offset : Nat
  vecoffset : Nat
deriving Repr, DecidableEq

/-- One pass of the loop body of `SCSICmd.Write` over the vectors from
the cursor onward.  Arguments: bytes still to write `rem`, cursor
`off` into the head vector, remaining vectors.  Returns the rewritten
vectors, how many vectors the cursor advanced past, the final
intra-vector cursor, the byte count written, and the error flag
(`true` models the `out of buffer scsi cmd buffer space` error). -/
def writeLoop : List Nat → Nat → List (List Nat) →
    List (List Nat) × Nat × Nat × Nat × Bool
  | [], off, vs => (vs, 0, off, 0, false)
  | _ :: _, off, [] => ([], 0, off, 0, true)
  | b :: bs, off, v :: rest =>
    have rem := b :: bs
    have cap := v.length - off
    have w := min cap rem.length
    have v2 := copyInto v off (rem.take w)
    if off + w = v.length then
      match writeLoop (rem.drop w) 0 rest with
      | (rest2, adv, off2, n, e) => (v2 :: rest2, adv + 1, off2, w + n, e)
    else
      (v2 :: rest, 0, off + w, w, false)

/-- `SCSICmd.Write`: copy `b` into the command's vectors at the cursor.
Returns the byte count, the error flag, and the mutated command. -/
def SCSICmdM.write (c : SCSICmdM) (b : List Nat) : Nat × Bool × SCSICmdM :=
  match writeLoop b c.offset (List.drop c.vecoffset c.vecs) with
  | (rest2, adv, off2, n, e) =>
    (n, e, ⟨c.id, c.cdb, c.vecs.take c.vecoffset ++ rest2, off2,
            c.vecoffset + adv⟩)

/-- One pass of the loop body of `SCSICmd.Read`: collect up to `toRead`
bytes from the vectors at the cursor.  Returns the collected bytes, the
vector-advance count, the final intra-vector cursor, and the error flag
(`true` models `io.EOF`). -/
def readLoop : Nat → Nat → List (List Nat) →
    List Nat × Nat × Nat × Bool
  | 0, off, _ => ([], 0, off, false)
  | _ + 1, off, [] => ([], 0, off, true)
  | t + 1, off, v :: rest =>
    have toRead := t + 1
    have avail := v.length - off
    have r := min avail toRead
    have chunk := (v.drop off).take r
    if off + r = v.length then
      match readLoop (toRead - r) 0 rest with
      | (out, adv, off2, e) => (chunk ++ out, adv + 1, off2, e)
    else
      (chunk, 0, off + r, false)

/-- `SCSICmd.Read`: fill a `toRead`-byte output buffer from the
command's vectors.  Returns the bytes read (their count is the returned
`n`), the error flag, and the command with its cursor advanced. -/
def SCSICmdM.read (c : SCSICmdM) (toRead : Nat) :
    List Nat × Bool × SCSICmdM :=
  match readLoop toRead c.offset (c.vecs.drop c.vecoffset) with
  | (out, adv, off2, e) =>
    (out, e, ⟨c.id, c.cdb, c.vecs, off2, c.vecoffset + adv⟩)

/-! ## CDB decoding (`scsi_handler.go`) -/

/-- `SCSICmd.CdbLen`: decode the CDB length from the first CDB byte.
`none` models the `panic` on undefined opcode groups. -/
def cdbLenM (cdb : List Nat) : Option Nat :=
  if cdb.getD 0 0 ≤ 0x1f then some 6
  else if cdb.getD 0 0 ≤ 0x5f then some 10
  else if cdb.getD 0 0 = 0x7f then some (cdb.getD 7 0 + 8)
  else if 0x80 ≤ cdb.getD 0 0 ∧ cdb.getD 0 0 ≤ 0x9f then some 16
  else if 0xa0 ≤ cdb.getD 0 0 ∧ cdb.getD 0 0 ≤ 0xbf then some 12
  else none

/-- `SCSICmd.LBA`: decode the logical block address.  In the 6-byte
case the source narrows the big-endian 16-bit read to `uint8`
(`uint8(order.Uint16(c.cdb[2:4]))`), hence the `% 256`.  `none` models
the panic on lengths other than 6/10/12/16. -/
def lbaM (cdb : List Nat) : Option Nat :=
  match cdbLenM cdb with
  | some 6 =>
    if beRead2 cdb 2 % 256 = 0 then some 256 else some (beRead2 cdb 2 % 256)
  | some 10 => some (beRead4 cdb 2)
  | some 12 => some (beRead4 cdb 2)
  | some 16 => some (beRead8 cdb 2)
  | _ => none

/-- `SCSICmd.XferLen`: decode the transfer length in blocks. -/
def xferLenM (cdb : List Nat) : Option Nat :=
  match cdbLenM cdb with
  | some 6 => some (cdb.getD 4 0)
  | some 10 => some (beRead2 cdb 7)
  | some 12 => some (beRead4 cdb 6)
  | some 16 => some (beRead4 cdb 10)
  | _ => none

/-! ## Responses and sense buffers (`scsi_handler.go`, `scsi` package) -/

def samStatGood : Nat := 0x00
def samStatCheckCondition : Nat := 0x02
def senseIllegalRequest : Nat := 0x05
def senseMediumError : Nat := 0x03
def ascInvalidFieldInCdb : Nat := 0x2400
def ascParameterListLengthError : Nat := 0x1a00
def ascInvalidFieldInParameterList : Nat := 0x2600
def tcmuSenseBufferSize : Nat := 96

structure SCSIRespM where
  id : Nat
  status : Nat
  senseBuffer : List Nat
deriving Repr, DecidableEq

/-- `SCSICmd.Ok`: a response with `SAM_STAT_GOOD` and no sense data. -/
def SCSICmdM.ok (c : SCSICmdM) : SCSIRespM :=
  ⟨c.id, samStatGood, []⟩

/-- `SCSICmd.CheckCondition`: a 96-byte fixed-format sense buffer built
from a zeroed buffer by the stores of the source, byte for byte. -/
def SCSICmdM.checkCondition (c : SCSICmdM) (key : Nat) (asc : Nat) :
    SCSIRespM :=
  have buf := List.replicate tcmuSenseBufferSize 0
  have buf := setAt buf 0 0x70
  have buf := setAt buf 2 key
  have buf := setAt buf 7 0xa
  have buf := setAt buf 12 (asc / 256 % 256)
  have buf := setAt buf 13 (asc % 256)
  ⟨c.id, samStatCheckCondition, buf⟩

/-- `SCSICmd.NotHandled`: the fixed sense buffer the source builds for
unsupported CDBs. -/
def SCSICmdM.notHandled (c : SCSICmdM) : SCSIRespM :=
  have buf := List.replicate tcmuSenseBufferSize 0
  have buf := setAt buf 0 0x70
  have buf := setAt buf 2 0x5
  have buf := setAt buf 7 0xa
  have buf := setAt buf 12 0x20
  have buf := setAt buf 13 0x0
  ⟨c.id, samStatCheckCondition, buf⟩

/-- `SCSICmd.IllegalRequest`. -/
def SCSICmdM.illegalRequest (c : SCSICmdM) : SCSIRespM :=
  c.checkCondition senseIllegalRequest ascInvalidFieldInCdb

/-! ## Emulator (`scsihandler.go`) -/

/-- `DataSizes`: volume size in bytes and block size. -/
structure DataSizesM where
  volumeSize : Nat
  blockSize : Nat
deriving Repr, DecidableEq

/-- Result of an emulator function `(SCSIResponse, error)`: `ok` for a
nil error, `goerr` for a non-nil Go error (the response value is then
the discarded zero value), `fatal` for a panic reached inside the
call (undefined CDB length). -/
inductive EmuResult where
  | ok (resp : SCSIRespM) (c : SCSICmdM)
  | goerr
  | fatal
deriving Repr, DecidableEq

/-- `FixedString`: space-pad a byte string to `length`, truncating if
longer. -/
def fixedString (s : List Nat) (length : Nat) : List Nat :=
  if length ≤ s.length then s.take length
  else s ++ List.replicate (length - s.length) 0x20

structure InquiryInfoM where
  vendorID : List Nat
  productID : List Nat
  productRev : List Nat
deriving Repr, DecidableEq

/-- `EmulateStdInquiry`: build the 36-byte standard inquiry buffer and
write it into the command's vectors. -/
def emulateStdInquiry (c : SCSICmdM) (inq : InquiryInfoM) : EmuResult :=
  have buf := List.replicate 36 0
  have buf := setAt buf 2 0x05
  have buf := setAt buf 3 0x02
  have buf := setAt buf 7 0x02
  have buf := copyInto buf 8 (fixedString inq.vendorID 8)
  have buf := copyInto buf 16 (fixedString inq.productID 16)
  have buf := copyInto buf 32 (fixedString inq.productRev 4)
  have buf := setAt buf 4 31
  match c.write buf with
  | (_, true, _) => .goerr
  | (_, false, c2) => .ok c2.ok c2

/-- The 36-byte standard inquiry data, named for the statement of its
correctness theorem. -/
def stdInquiryBuf (inq : InquiryInfoM) : List Nat :=
  have buf := List.replicate 36 0
  have buf := setAt buf 2 0x05
  have buf := setAt buf 3 0x02
  have buf := setAt buf 7 0x02
  have buf := copyInto buf 8 (fixedString inq.vendorID 8)
  have buf := copyInto buf 16 (fixedString inq.productID 16)
  have buf := copyInto buf 32 (fixedString inq.productRev 4)
  setAt buf 4 31

/-- `EmulateReadCapacity16`: 32-byte buffer with the index of the last
LBA (big-endian, 64-bit wraparound as in Go `uint64` subtraction) and
the block size; the `cmd.Write` return values are discarded. -/
def emulateReadCapacity16 (c : SCSICmdM) (sizes : DataSizesM) : EmuResult :=
  have lastLBA :=
    (sizes.volumeSize / sizes.blockSize + (18446744073709551616 - 1)) %
      18446744073709551616
  have buf := bePut8 lastLBA ++ bePut4 (sizes.blockSize % 4294967296) ++
    List.replicate 20 0
  match c.write buf with
  | (_, _, c2) => .ok c2.ok c2

/-- `EmulateServiceActionIn`: the source compares the whole of CDB
byte 1 with `scsi.ReadCapacity16 = 0x10`. -/
def emulateServiceActionIn (c : SCSICmdM) (sizes : DataSizesM) : EmuResult :=
  if c.cdb.getD 1 0 = 0x10 then emulateReadCapacity16 c sizes
  else .ok c.notHandled c

/-- `CachingModePage`: the 20-byte caching mode page, with the Write
Cache Enabled bit set in byte 2 when `wce`. -/
def cachingModePage (wce : Bool) : List Nat :=
  have buf := List.replicate 20 0
  have buf := setAt buf 0 0x08
  have buf := setAt buf 1 0x12
  if wce then setAt buf 2 ((buf.getD 2 0) ||| 0x04) else buf

/-- `EmulateModeSelect`.  The 512-byte `inBuf` of the source is the
collected bytes of `cmd.Read` padded with the untouched zero tail; a
`cmd.Read` error (`io.EOF` when the vectors hold fewer than 512 bytes)
propagates as `goerr` exactly as the source returns the error. -/
def emulateModeSelect (c : SCSICmdM) (wce : Bool) : EmuResult :=
  have selectTen := c.cdb.getD 0 0 == 0x55
  have page := c.cdb.getD 2 0 &&& 0x3f
  have subpage := c.cdb.getD 3 0
  match xferLenM c.cdb with
  | none => .fatal
  | some allocLen =>
    have hdrLen := if selectTen then 8 else 4
    if allocLen = 0 then .ok c.ok c
    else
      match c.read 512 with
      | (_, true, _) => .goerr
      | (got, false, c2) =>
        have n := got.length
        have inBuf := got ++ List.replicate (512 - n) 0
        if 512 ≤ n then
          .ok (c2.checkCondition senseIllegalRequest
            ascParameterListLengthError) c2
        else
          have cdbone := c2.cdb.getD 1 0
          if cdbone &&& 0x10 = 0 ∨ cdbone &&& 0x01 ≠ 0 then
            .ok c2.illegalRequest c2
          else if page = 0x08 ∧ subpage = 0 then
            have b := cachingModePage wce
            if allocLen < hdrLen + b.length then
              .ok (c2.checkCondition senseIllegalRequest
                ascParameterListLengthError) c2
            else if (inBuf.take b.length).drop hdrLen = b then .ok c2.ok c2
            else
              .ok (c2.checkCondition senseIllegalRequest
                ascInvalidFieldInParameterList) c2
          else .ok c2.illegalRequest c2

/-! ## The shared memory-mapped region (`struct_access.go`, `poll.go`)

`Mem` maps a byte offset within the mmap to a byte value.  Reads
compose bytes little-endian (the unsafe-pointer loads of the source on
the little-endian target of the present offset profile); writes store
each byte reduced `% 256`. -/

def Mem : Type := Nat → Nat

def read8 (m : Mem) (a : Nat) : Nat := m a

def read16 (m : Mem) (a : Nat) : Nat := m a + 256 * m (a + 1)

def read32 (m : Mem) (a : Nat) : Nat :=
  m a + 256 * m (a + 1) + 65536 * m (a + 2) + 16777216 * m (a + 3)

def read64 (m : Mem) (a : Nat) : Nat :=
  read32 m a + 4294967296 * read32 m (a + 4)

def write8 (m : Mem) (a : Nat) (v : Nat) : Mem :=
  fun x => if x = a then v % 256 else m x

def write16 (m : Mem) (a : Nat) (v : Nat) : Mem :=
  write8 (write8 m a v) (a + 1) (v / 256)

def write32 (m : Mem) (a : Nat) (v : Nat) : Mem :=
  write8 (write8 (write8 (write8 m a v) (a + 1) (v / 256))
    (a + 2) (v / 65536)) (a + 3) (v / 16777216)

/-- Offsets of `offsets_32bit_pad.go`. -/
def offLenOp : Nat := 0
def offCmdId : Nat := 4
def entReqRespOff : Nat := 8
def offReqIovCnt : Nat := entReqRespOff + 0
def offReqCdbOff : Nat := entReqRespOff + 16
def iovSize : Nat := 8
def offReqIov0Base : Nat := entReqRespOff + 40
def offReqIov0Len : Nat := entReqRespOff + 44
def offRespSCSIStatus : Nat := entReqRespOff + 0
def offRespSense : Nat := entReqRespOff + 8

def tcmuOpPad : Nat := 0
def tcmuOpCmd : Nat := 1

/-- Mailbox field readers of `struct_access.go`. -/
def mbCmdrOffset (m : Mem) : Nat := read32 m 4
def mbCmdrSize (m : Mem) : Nat := read32 m 8
def mbCmdHead (m : Mem) : Nat := read32 m 12
def mbCmdTail (m : Mem) : Nat := read32 m 64
def mbSetTail (m : Mem) (u : Nat) : Mem := write32 m 64 u

/-- `entHdrOp`: the low 3 bits of the `len_op` word. -/
def entHdrOp (m : Mem) (off : Nat) : Nat := read32 m (off + offLenOp) % 8

/-- `entHdrGetLen`: the `len_op` word with the low 3 bits cleared. -/
def entHdrGetLen (m : Mem) (off : Nat) : Nat :=
  read32 m (off + offLenOp) / 8 * 8

def entCmdId (m : Mem) (off : Nat) : Nat := read16 m (off + offCmdId)
def setEntCmdId (m : Mem) (off : Nat) (id : Nat) : Mem :=
  write16 m (off + offCmdId) id
def entReqIovCnt (m : Mem) (off : Nat) : Nat := read32 m (off + offReqIovCnt)
def entReqCdbOff (m : Mem) (off : Nat) : Nat := read64 m (off + offReqCdbOff)

def setEntRespSCSIStatus (m : Mem) (off : Nat) (status : Nat) : Mem :=
  write8 m (off + offRespSCSIStatus) status

/-- `copyEntRespSenseData`: copy up to 96 bytes of sense data and zero
the unused tail of the 96-byte sense region. -/
def copyEntRespSenseData (m : Mem) (off : Nat) (data : List Nat) : Mem :=
  fun x =>
    if off + offRespSense ≤ x ∧ x < off + offRespSense + tcmuSenseBufferSize
    then data.getD (x - (off + offRespSense)) 0 % 256
    else m x

/-- `entIovecN`: the `idx`-th embedded iovec; `base` (a mailbox byte
offset) and `len` are pointer-sized (4-byte) fields at stride
`iovSize`.  The returned vector is the byte contents of
`mmap[base : base+len]`. -/
def entIovecN (m : Mem) (off : Nat) (idx : Nat) : List Nat :=
  have base := read32 m (off + offReqIov0Base + iovSize * idx)
  have len := read32 m (off + offReqIov0Len + iovSize * idx)
  (List.range len).map fun j => m (base + j)

/-- `Device.cdbLen` of `struct_access.go` (same rule as
`SCSICmd.CdbLen`), reading the opcode from the mmap. -/
def memCdbLen (m : Mem) (cdbStart : Nat) : Option Nat :=
  if m cdbStart ≤ 0x1f then some 6
  else if m cdbStart ≤ 0x5f then some 10
  else if m cdbStart = 0x7f then some (m (cdbStart + 7) + 8)
  else if 0x80 ≤ m cdbStart ∧ m cdbStart ≤ 0x9f then some 16
  else if 0xa0 ≤ m cdbStart ∧ m cdbStart ≤ 0xbf then some 12
  else none

/-- `entCdb`: the CDB bytes at mailbox offset `cdb_off`; `none` models
the panic of `cdbLen` on an undefined opcode. -/
def entCdb (m : Mem) (off : Nat) : Option (List Nat) :=
  have cdbStart := entReqCdbOff m off
  match memCdbLen m cdbStart with
  | none => none
  | some len => some ((List.range len).map fun j => m (cdbStart + j))

/-! ## The ring reader (`Device.getNextCommand`, `poll.go`)

The reader state is the mmap plus the Device's private `cmdTail`
field.  The source loop can only terminate by reaching `cmd_head` or
yielding a command, so the embedding carries fuel; `none` models both
the `panic` on an unknown opcode and fuel exhaustion. -/

structure DevState where
  mem : Mem
  cmdTail : Nat

/-- Decode the command entry at ring offset `off`, as the `tcmuOpCmd`
arm of the source loop does. -/
def decodeCmd (m : Mem) (off : Nat) : Option SCSICmdM :=
  match entCdb m off with
  | none => none
  | some cdb =>
    have vecs := (List.range (entReqIovCnt m off)).map (entIovecN m off)
    some ⟨entCmdId m off, cdb, vecs, 0, 0⟩

/-- `Device.getNextCommand`: `some none` is the `nil, nil` return (ring
drained), `some (some c)` yields a command, `none` is a panic or
insufficient fuel. -/
def getNextCommandS : Nat → DevState → Option (Option SCSICmdM × DevState)
  | 0, _ => none
  | fuel + 1, s =>
    if s.cmdTail + mbCmdrOffset s.mem = mbCmdHead s.mem + mbCmdrOffset s.mem
    then some (none, s)
    else if entHdrOp s.mem (s.cmdTail + mbCmdrOffset s.mem) = tcmuOpPad then
      getNextCommandS fuel
        ⟨s.mem, (s.cmdTail + entHdrGetLen s.mem
          (s.cmdTail + mbCmdrOffset s.mem)) % mbCmdrSize s.mem⟩
    else if entHdrOp s.mem (s.cmdTail + mbCmdrOffset s.mem) = tcmuOpCmd then
      match decodeCmd s.mem (s.cmdTail + mbCmdrOffset s.mem) with
      | none => none
      | some c =>
        some (some c,
          ⟨s.mem, (s.cmdTail + entHdrGetLen s.mem
            (s.cmdTail + mbCmdrOffset s.mem)) % mbCmdrSize s.mem⟩)
    else none

/-- Repeated `getNextCommand` until it reports the ring empty: the
drain loop of `beginPoll`. -/
def drainS : Nat → DevState → Option (List SCSICmdM × DevState)
  | 0, _ => none
  | fuel + 1, s =>
    match getNextCommandS (fuel + 1) s with
    | none => none
    | some (none, s2) => some ([], s2)
    | some (some c, s2) =>
      match drainS fuel s2 with
      | none => none
      | some (cs, s3) => some (c :: cs, s3)

/-! ## The completion path (`Device.completeCommand` and
`Device.recvResponse`, `poll.go`) -/

/-- The pad-skipping loop at the head of `completeCommand`: while the
entry at the shared tail is not a cmd entry, advance the shared tail
past it (writing the mailbox `cmd_tail` word each iteration). -/
def skipPads : Nat → Mem → Option Mem
  | 0, _ => none
  | fuel + 1, m =>
    if entHdrOp m (mbCmdTail m + mbCmdrOffset m) = tcmuOpCmd then some m
    else
      skipPads fuel
        (mbSetTail m ((mbCmdTail m + entHdrGetLen m
          (mbCmdTail m + mbCmdrOffset m)) % mbCmdrSize m))

/-- The `cmd_id` rewrite of `completeCommand`: overwrite the entry's
`cmd_id` only when it differs from the response id. -/
def maybeSetId (m : Mem) (off id : Nat) : Mem :=
  if entCmdId m off = id then m else setEntCmdId m off id

/-- The sense copy of `completeCommand`: performed only when the
status is not `SAM_STAT_GOOD`. -/
def writeSense (m : Mem) (off : Nat) (resp : SCSIRespM) : Mem :=
  if resp.status = samStatGood then m
  else copyEntRespSenseData m off resp.senseBuffer

/-- The final shared-tail advance of `completeCommand`. -/
def advanceSharedTail (m : Mem) (off : Nat) : Mem :=
  mbSetTail m ((mbCmdTail m + entHdrGetLen m off) % mbCmdrSize m)

/-- The entry updates of `completeCommand` after the pad loop, in
source order: conditional `cmd_id` rewrite, status byte, conditional
sense copy, shared-tail advance. -/
def completeEntry (m1 : Mem) (off : Nat) (resp : SCSIRespM) : Mem :=
  advanceSharedTail
    (writeSense (setEntRespSCSIStatus (maybeSetId m1 off resp.id) off
      resp.status) off resp) off

/-- `Device.completeCommand`: skip pads, conditionally rewrite
`cmd_id`, store the status byte, copy sense data on failure, advance
the shared tail past the entry.  The returned flag records whether the
`cmd_id` store was performed. -/
def completeCommand (fuel : Nat) (m : Mem) (resp : SCSIRespM) :
    Option (Mem × Bool) :=
  match skipPads fuel m with
  | none => none
  | some m1 =>
    some (completeEntry m1 (mbCmdTail m1 + mbCmdrOffset m1) resp,
          !(entCmdId m1 (mbCmdTail m1 + mbCmdrOffset m1) == resp.id))

/-- One iteration of `Device.recvResponse`: complete the command, then
write the 4-byte wakeup buffer to the userspace-I/O fd.  The final
component is the byte count handed to `unix.Write` (the length of
`buf := make([]byte, 4)`). -/
def recvStep (fuel : Nat) (m : Mem) (resp : SCSIRespM) :
    Option (Mem × Bool × Nat) :=
  match completeCommand fuel m resp with
  | none => none
  | some (m2, rw) => some (m2, rw, 4)

/-! ## Helper lemmas -/

theorem getD_lt_of_all_lt (l : List Nat) (i : Nat)
    (hb : ∀ b ∈ l, b < 256) : l.getD i 0 < 256 := by
  rcases Nat.lt_or_ge i l.length with h | h
  · rw [List.getD_eq_getElem l 0 h]
    exact hb _ (List.getElem_mem h)
  · rw [List.getD_eq_default l 0 h]
    omega

/-! ## C1: the 6-byte CDB logical block address -/

/-- C1, counterexample.  The claim says `LBA()` of a 6-byte CDB returns
the big-endian 16-bit integer at CDB bytes 2-3 (0 mapped to 256).  For
the 6-byte CDB `[0x08, 0, 1, 2, 0, 0]` that integer is 258, but the
source narrows it to `uint8` and returns 2. -/
theorem C1_counterexample :
    beRead2 [0x08, 0, 1, 2, 0, 0] 2 = 258 ∧
    lbaM [0x08, 0, 1, 2, 0, 0] = some 2 ∧ (2 : Nat) ≠ 258 := by
  decide

/-- C1, amended: for every 6-byte CDB (first byte at most `0x1f`, byte
values below 256), `LBA()` returns the LOW BYTE of the big-endian
16-bit integer at CDB bytes 2-3, i.e. CDB byte 3, except that the
value 0 is returned as 256. -/
theorem C1_lba6 (cdb : List Nat) (h0 : cdb.getD 0 0 ≤ 0x1f)
    (hb : ∀ b ∈ cdb, b < 256) :
    lbaM cdb = some (if cdb.getD 3 0 = 0 then 256 else cdb.getD 3 0) := by
  have hlen : cdbLenM cdb = some 6 := by
    unfold cdbLenM
    rw [if_pos h0]
  have h3 : cdb.getD 3 0 < 256 := getD_lt_of_all_lt cdb 3 hb
  have hmod : beRead2 cdb 2 % 256 = cdb.getD 3 0 := by
    have he : (2 : Nat) + 1 = 3 := rfl
    rw [beRead2, he]
    omega
  unfold lbaM
  rw [hlen]
  simp only [hmod]
  split <;> rfl

/-- C1, witness for the amended theorem. -/
theorem C1_lba6_witness :
    lbaM [0x08, 0, 1, 0, 0, 0] = some 256 ∧
    lbaM [0x08, 0, 0, 9, 0, 0] = some 9 := by
  refine ⟨?_, ?_⟩
  · have h := C1_lba6 [0x08, 0, 1, 0, 0, 0] (by decide) (by decide)
    simpa using h
  · have h := C1_lba6 [0x08, 0, 0, 9, 0, 0] (by decide) (by decide)
    simpa using h

/-! ## C5: the CDB length table -/

/-- C5: for every first CDB byte, the decoded CDB length follows the
SPC-4 table: 6 for `0x00-0x1f`, 10 for `0x20-0x5f`, `8 + cdb[7]` for
`0x7f`, 16 for `0x80-0x9f`, 12 for `0xa0-0xbf`, undefined (a panic,
embedded as `none`) for the gap ranges `0x60-0x7e` and `0xc0` up. -/
theorem C5_cdb_length (cdb : List Nat) :
    (cdb.getD 0 0 ≤ 0x1f → cdbLenM cdb = some 6) ∧
    (0x20 ≤ cdb.getD 0 0 ∧ cdb.getD 0 0 ≤ 0x5f → cdbLenM cdb = some 10) ∧
    (cdb.getD 0 0 = 0x7f → cdbLenM cdb = some (8 + cdb.getD 7 0)) ∧
    (0x80 ≤ cdb.getD 0 0 ∧ cdb.getD 0 0 ≤ 0x9f → cdbLenM cdb = some 16) ∧
    (0xa0 ≤ cdb.getD 0 0 ∧ cdb.getD 0 0 ≤ 0xbf → cdbLenM cdb = some 12) ∧
    ((0x60 ≤ cdb.getD 0 0 ∧ cdb.getD 0 0 ≤ 0x7e) ∨ 0xc0 ≤ cdb.getD 0 0 →
      cdbLenM cdb = none) := by
  refine ⟨fun h => ?_, fun h => ?_, fun h => ?_, fun h => ?_, fun h => ?_,
    fun h => ?_⟩ <;>
    · unfold cdbLenM
      split_ifs <;> first
        | rfl
        | omega
        | (congr 1; omega)

/-- C5, witness. -/
theorem C5_cdb_length_witness :
    cdbLenM [0x12, 0, 0, 0, 0, 0] = some 6 ∧
    cdbLenM [0x28, 0, 0, 0, 0, 0, 0, 0, 0, 0] = some 10 ∧
    cdbLenM [0x7f, 0, 0, 0, 0, 0, 0, 24] = some 32 ∧
    cdbLenM (0x9e :: List.replicate 15 0) = some 16 ∧
    cdbLenM (0xa8 :: List.replicate 11 0) = some 12 ∧
    cdbLenM [0x60] = none := by
  refine ⟨(C5_cdb_length _).1 (by decide),
    (C5_cdb_length _).2.1 (by decide), ?_,
    (C5_cdb_length _).2.2.2.1 (by decide),
    (C5_cdb_length _).2.2.2.2.1 (by decide),
    (C5_cdb_length _).2.2.2.2.2 (by decide)⟩
  have h := (C5_cdb_length [0x7f, 0, 0, 0, 0, 0, 0, 24]).2.2.1 (by decide)
  simpa using h

/-! ## C8: fixed-format sense buffers -/

/-- C8, counterexample.  The claim says byte 2 of a
`CheckCondition(key, asc)` sense buffer is `key & 0x0f`; the source
stores `key` unmasked, which differs for `key = 0x15`. -/
theorem C8_counterexample :
    ((⟨0, [], [], 0, 0⟩ : SCSICmdM).checkCondition 0x15
        ascInvalidFieldInCdb).senseBuffer.getD 2 0 = 0x15 ∧
    (0x15 : Nat) ≠ 0x15 &&& 0x0f := by
  decide

/-- C8, amended: every `CheckCondition(key, asc)` response carries
status `0x02` and a 96-byte sense buffer with byte 0 = `0x70`, byte 2 =
`key` (stored UNMASKED), byte 7 = `0x0a`, byte 12 = `(asc>>8)&0xff`,
byte 13 = `asc&0xff` and every other byte zero; and for any
unsupported CDB (the `NotHandled` response) the status is `0x02` and
sense bytes `[0,2,7,12,13]` are `[0x70, 0x05, 0x0a, 0x20, 0x00]` with
every other byte zero. -/
theorem getD_replicate_zero (n j : Nat) :
    (List.replicate n (0 : Nat)).getD j 0 = 0 := by
  rcases Nat.lt_or_ge j n with h | h
  · rw [List.getD_eq_getElem _ 0 (by simpa using h)]
    simp
  · rw [List.getD_eq_default _ 0 (by simpa using h)]

theorem getD_sense_chain (k a b j : Nat) :
    (setAt (setAt (setAt (setAt (setAt (List.replicate 96 0) 0 0x70) 2 k)
        7 0xa) 12 a) 13 b).getD j 0 =
      if j = 13 then b else if j = 12 then a else if j = 7 then 0xa
      else if j = 2 then k else if j = 0 then 0x70 else 0 := by
  rw [getD_setAt _ _ _ _ (by simp), getD_setAt _ _ _ _ (by simp),
      getD_setAt _ _ _ _ (by simp), getD_setAt _ _ _ _ (by simp),
      getD_setAt _ _ _ _ (by simp)]
  split_ifs <;> first
    | rfl
    | exact getD_replicate_zero 96 j

theorem C8_sense_buffers (c : SCSICmdM) (key asc : Nat) :
    ((c.checkCondition key asc).status = samStatCheckCondition ∧
     (c.checkCondition key asc).senseBuffer.length = 96 ∧
     (c.checkCondition key asc).senseBuffer.getD 0 0 = 0x70 ∧
     (c.checkCondition key asc).senseBuffer.getD 2 0 = key ∧
     (c.checkCondition key asc).senseBuffer.getD 7 0 = 0x0a ∧
     (c.checkCondition key asc).senseBuffer.getD 12 0 = asc / 256 % 256 ∧
     (c.checkCondition key asc).senseBuffer.getD 13 0 = asc % 256 ∧
     (∀ i, i < 96 → i ≠ 0 → i ≠ 2 → i ≠ 7 → i ≠ 12 → i ≠ 13 →
       (c.checkCondition key asc).senseBuffer.getD i 0 = 0)) ∧
    ((c.notHandled).status = samStatCheckCondition ∧
     (c.notHandled).senseBuffer.length = 96 ∧
     (c.notHandled).senseBuffer.getD 0 0 = 0x70 ∧
     (c.notHandled).senseBuffer.getD 2 0 = 0x05 ∧
     (c.notHandled).senseBuffer.getD 7 0 = 0x0a ∧
     (c.notHandled).senseBuffer.getD 12 0 = 0x20 ∧
     (c.notHandled).senseBuffer.getD 13 0 = 0x00 ∧
     (∀ i, i < 96 → i ≠ 0 → i ≠ 2 → i ≠ 7 → i ≠ 12 → i ≠ 13 →
       (c.notHandled).senseBuffer.getD i 0 = 0)) := by
  have hcc : (c.checkCondition key asc).senseBuffer =
      setAt (setAt (setAt (setAt (setAt (List.replicate 96 0) 0 0x70) 2 key)
        7 0xa) 12 (asc / 256 % 256)) 13 (asc % 256) := rfl
  have hnh : (c.notHandled).senseBuffer =
      setAt (setAt (setAt (setAt (setAt (List.replicate 96 0) 0 0x70) 2 0x5)
        7 0xa) 12 0x20) 13 0x0 := rfl
  refine ⟨⟨rfl, ?_, ?_, ?_, ?_, ?_, ?_, ?_⟩, ⟨rfl, ?_, ?_, ?_, ?_, ?_, ?_, ?_⟩⟩
  · rw [hcc]; simp [setAt]
  · rw [hcc, getD_sense_chain]; norm_num
  · rw [hcc, getD_sense_chain]; norm_num
  · rw [hcc, getD_sense_chain]; norm_num
  · rw [hcc, getD_sense_chain]; norm_num
  · rw [hcc, getD_sense_chain]; norm_num
  · intro i hi h0 h2 h7 h12 h13
    rw [hcc, getD_sense_chain]
    split_ifs <;> omega
  · rw [hnh]; simp [setAt]
  · rw [hnh, getD_sense_chain]; norm_num
  · rw [hnh, getD_sense_chain]; norm_num
  · rw [hnh, getD_sense_chain]; norm_num
  · rw [hnh, getD_sense_chain]; norm_num
  · rw [hnh, getD_sense_chain]; norm_num
  · intro i hi h0 h2 h7 h12 h13
    rw [hnh, getD_sense_chain]
    split_ifs <;> omega

/-! ## Buffer-write lemmas -/

theorem copyInto_nil (v : List Nat) (off : Nat) : copyInto v off [] = v := by
  simp [copyInto]

theorem copyInto_zero (v src : List Nat) (h : src.length ≤ v.length) :
    copyInto v 0 src = src ++ v.drop src.length := by
  simp [copyInto, List.take_of_length_le h]

theorem writeLoop_cons (x : Nat) (bs : List Nat) (off : Nat) (v : List Nat)
    (rest : List (List Nat)) :
    writeLoop (x :: bs) off (v :: rest) =
      if off + min (v.length - off) (x :: bs).length = v.length then
        match writeLoop ((x :: bs).drop (min (v.length - off)
            (x :: bs).length)) 0 rest with
        | (rest2, adv, off2, n, e) =>
          (copyInto v off ((x :: bs).take (min (v.length - off)
            (x :: bs).length)) :: rest2,
           adv + 1, off2, min (v.length - off) (x :: bs).length + n, e)
      else
        (copyInto v off ((x :: bs).take (min (v.length - off)
          (x :: bs).length)) :: rest, 0,
         off + min (v.length - off) (x :: bs).length,
         min (v.length - off) (x :: bs).length, false) := rfl

/-- Writing a buffer that fits into the single vector at the cursor
copies it in full and reports no error. -/
theorem writeLoop_single_le (b v : List Nat) (off : Nat)
    (h : b.length ≤ v.length - off) :
    ∃ adv off2,
      writeLoop b off [v] = ([copyInto v off b], adv, off2, b.length, false) := by
  cases b with
  | nil =>
    refine ⟨0, off, ?_⟩
    rw [copyInto_nil]
    rfl
  | cons x bs =>
    rw [writeLoop_cons]
    have hw : min (v.length - off) (x :: bs).length = (x :: bs).length :=
      Nat.min_eq_right h
    rw [hw, List.take_length, List.drop_length]
    rcases eq_or_ne (off + (x :: bs).length) v.length with hq | hq
    · rw [if_pos hq]
      exact ⟨1, 0, rfl⟩
    · rw [if_neg hq]
      exact ⟨0, off + (x :: bs).length, rfl⟩

/-! ## C3: Service Action In (16) -/

def c3cmd : SCSICmdM :=
  ⟨3, 0x9e :: 0x30 :: List.replicate 14 0, [List.replicate 40 0], 0, 0⟩

/-- C3, counterexample.  The claim keys Read Capacity 16 off the low 5
bits of CDB byte 1; the source compares the whole byte with 0x10.  For
CDB byte 1 = 0x30 the low 5 bits are 0x10, yet the emulator answers
`NotHandled` (status 0x02), not Good with a capacity buffer. -/
theorem C3_counterexample :
    (0x30 &&& 0x1f : Nat) = 0x10 ∧
    emulateServiceActionIn c3cmd ⟨1073741824, 1024⟩ =
      .ok c3cmd.notHandled c3cmd ∧
    c3cmd.notHandled.status ≠ samStatGood := by
  decide

/-- C3, amended: for every Service Action In (16) command, whenever
CDB byte 1 (the WHOLE byte) equals 0x10, the emulator responds Good
with a 32-byte buffer whose bytes 0-7 are the big-endian value
`VolumeSize/BlockSize - 1`, whose bytes 8-11 are the big-endian
BlockSize and whose remaining bytes are zero; for any other CDB byte 1
it returns NotHandled. -/
theorem C3_service_action_in (id : Nat) (cdb : List Nat) (v : List Nat)
    (sizes : DataSizesM)
    (hsa : cdb.getD 1 0 = 0x10) (hv : 32 ≤ v.length)
    (hq1 : 1 ≤ sizes.volumeSize / sizes.blockSize)
    (hq2 : sizes.volumeSize / sizes.blockSize < 18446744073709551616)
    (hblk : sizes.blockSize < 4294967296) :
    (∃ c2 : SCSICmdM,
      emulateServiceActionIn ⟨id, cdb, [v], 0, 0⟩ sizes =
        .ok ⟨id, samStatGood, []⟩ c2 ∧
      c2.vecs = [bePut8 (sizes.volumeSize / sizes.blockSize - 1) ++
        bePut4 sizes.blockSize ++ List.replicate 20 0 ++ v.drop 32]) ∧
    (∀ c : SCSICmdM, c.cdb.getD 1 0 ≠ 0x10 →
      emulateServiceActionIn c sizes = .ok c.notHandled c) := by
  constructor
  · have hrc : emulateServiceActionIn ⟨id, cdb, [v], 0, 0⟩ sizes =
        emulateReadCapacity16 ⟨id, cdb, [v], 0, 0⟩ sizes := by
      unfold emulateServiceActionIn
      rw [if_pos hsa]
    have hlast : (sizes.volumeSize / sizes.blockSize +
        (18446744073709551616 - 1)) % 18446744073709551616 =
        sizes.volumeSize / sizes.blockSize - 1 := by
      omega
    have hbm : sizes.blockSize % 4294967296 = sizes.blockSize :=
      Nat.mod_eq_of_lt hblk
    have hbuf : emulateReadCapacity16 ⟨id, cdb, [v], 0, 0⟩ sizes =
        (match SCSICmdM.write ⟨id, cdb, [v], 0, 0⟩
          (bePut8 (sizes.volumeSize / sizes.blockSize - 1) ++
           bePut4 sizes.blockSize ++ List.replicate 20 0) with
         | (_, _, c2) => .ok c2.ok c2) := by
      unfold emulateReadCapacity16
      rw [hlast, hbm]
    have hlen : (bePut8 (sizes.volumeSize / sizes.blockSize - 1) ++
        bePut4 sizes.blockSize ++ List.replicate 20 0).length = 32 := by
      simp [bePut8, bePut4]
    obtain ⟨adv, off2, hwl⟩ := writeLoop_single_le
      (bePut8 (sizes.volumeSize / sizes.blockSize - 1) ++
       bePut4 sizes.blockSize ++ List.replicate 20 0) v 0
      (by omega)
    have hwr : SCSICmdM.write ⟨id, cdb, [v], 0, 0⟩
        (bePut8 (sizes.volumeSize / sizes.blockSize - 1) ++
         bePut4 sizes.blockSize ++ List.replicate 20 0) =
        (32, false, ⟨id, cdb,
          [copyInto v 0 (bePut8 (sizes.volumeSize / sizes.blockSize - 1) ++
            bePut4 sizes.blockSize ++ List.replicate 20 0)], off2, adv⟩) := by
      unfold SCSICmdM.write
      simp only [List.drop_zero]
      rw [hwl, hlen]
      simp
    refine ⟨⟨id, cdb,
      [copyInto v 0 (bePut8 (sizes.volumeSize / sizes.blockSize - 1) ++
        bePut4 sizes.blockSize ++ List.replicate 20 0)], off2, adv⟩, ?_, ?_⟩
    · rw [hrc, hbuf, hwr]
      rfl
    · show [copyInto v 0 _] = _
      rw [copyInto_zero _ _ (by omega), hlen]
  · intro c hc
    unfold emulateServiceActionIn
    rw [if_neg hc]

/-- C3, witness for the amended theorem: 1 GiB volume with 1 KiB
blocks; the last-LBA field is 2^20 - 1. -/
theorem C3_service_action_in_witness :
    ∃ c2 : SCSICmdM,
      emulateServiceActionIn
          ⟨1, 0x9e :: 0x10 :: List.replicate 14 0, [List.replicate 40 7], 0, 0⟩
          ⟨1073741824, 1024⟩ =
        .ok ⟨1, samStatGood, []⟩ c2 ∧
      c2.vecs = [[0, 0, 0, 0, 0, 15, 255, 255, 0, 0, 4, 0] ++
        List.replicate 20 0 ++ List.replicate 8 7] := by
  obtain ⟨c2, h1, h2⟩ := (C3_service_action_in 1
    (0x9e :: 0x10 :: List.replicate 14 0) (List.replicate 40 7)
    ⟨1073741824, 1024⟩ (by decide) (by decide) (by decide) (by decide)
    (by decide)).1
  refine ⟨c2, h1, ?_⟩
  rw [h2]
  rfl

/-! ## C9: standard Inquiry -/

theorem fixedString_length (s : List Nat) (n : Nat) :
    (fixedString s n).length = n := by
  unfold fixedString
  split_ifs with h <;> simp <;> omega

theorem copyInto_exact (v src : List Nat) (off : Nat)
    (h : off + src.length ≤ v.length) :
    copyInto v off src = v.take off ++ src ++ v.drop (off + src.length) := by
  unfold copyInto
  rw [List.take_of_length_le (by omega : src.length ≤ v.length - off)]

/-- The 36-byte standard inquiry buffer in closed form: the fixed
header bytes followed by the three padded identification strings. -/
theorem stdInquiryBuf_eq (inq : InquiryInfoM) :
    stdInquiryBuf inq =
      [0, 0, 0x05, 0x02, 31, 0, 0, 0x02] ++ fixedString inq.vendorID 8 ++
        fixedString inq.productID 16 ++ fixedString inq.productRev 4 := by
  have hV := fixedString_length inq.vendorID 8
  have hP := fixedString_length inq.productID 16
  have hR := fixedString_length inq.productRev 4
  have hs0 : setAt (setAt (setAt (List.replicate 36 0) 2 5) 3 2) 7 2 =
      [0, 0, 5, 2, 0, 0, 0, 2] ++ List.replicate 28 0 := by decide
  have h0 : stdInquiryBuf inq =
      setAt (copyInto (copyInto (copyInto
        ([0, 0, 5, 2, 0, 0, 0, 2] ++ List.replicate 28 0) 8
          (fixedString inq.vendorID 8)) 16
          (fixedString inq.productID 16)) 32
          (fixedString inq.productRev 4)) 4 31 := by
    show setAt (copyInto (copyInto (copyInto
        (setAt (setAt (setAt (List.replicate 36 0) 2 5) 3 2) 7 2) 8
          (fixedString inq.vendorID 8)) 16
          (fixedString inq.productID 16)) 32
          (fixedString inq.productRev 4)) 4 31 = _
    rw [hs0]
  have h1 : copyInto ([0, 0, 5, 2, 0, 0, 0, 2] ++ List.replicate 28 0) 8
      (fixedString inq.vendorID 8) =
      ([0, 0, 5, 2, 0, 0, 0, 2] ++ fixedString inq.vendorID 8) ++
        List.replicate 20 0 := by
    rw [copyInto_exact _ _ 8 (by simp [hV]), hV]
    have ht8 : ([0, 0, 5, 2, 0, 0, 0, 2] ++ List.replicate 28 0).take 8 =
        [0, 0, 5, 2, 0, 0, 0, 2] := by decide
    have hd16 : ([0, 0, 5, 2, 0, 0, 0, 2] ++
        List.replicate 28 0).drop (8 + 8) = List.replicate 20 0 := by decide
    rw [ht8, hd16, List.append_assoc]
  have h2 : copyInto (([0, 0, 5, 2, 0, 0, 0, 2] ++
      fixedString inq.vendorID 8) ++ List.replicate 20 0) 16
      (fixedString inq.productID 16) =
      (([0, 0, 5, 2, 0, 0, 0, 2] ++ fixedString inq.vendorID 8) ++
        fixedString inq.productID 16) ++ List.replicate 4 0 := by
    rw [copyInto_exact _ _ 16 (by simp [hV, hP]), hP]
    rw [List.take_left' (by simp [hV])]
    rw [List.drop_append_eq_append_drop]
    rw [List.drop_eq_nil_of_le (by simp [hV])]
    simp [hV, List.drop_replicate]
  have h3 : copyInto ((([0, 0, 5, 2, 0, 0, 0, 2] ++
      fixedString inq.vendorID 8) ++ fixedString inq.productID 16) ++
      List.replicate 4 0) 32 (fixedString inq.productRev 4) =
      (([0, 0, 5, 2, 0, 0, 0, 2] ++ fixedString inq.vendorID 8) ++
        fixedString inq.productID 16) ++ fixedString inq.productRev 4 := by
    rw [copyInto_exact _ _ 32 (by simp [hV, hP, hR]), hR]
    rw [List.take_left' (by simp [hV, hP])]
    rw [List.drop_append_eq_append_drop]
    rw [List.drop_eq_nil_of_le (by simp [hV, hP])]
    simp [hV, hP, List.drop_replicate]
  rw [h0, h1, h2, h3]
  unfold setAt
  rw [List.set_append_left 4 31 (by simp [hV, hP]),
      List.set_append_left 4 31 (by simp [hV]),
      List.set_append_left 4 31 (by decide)]
  rfl

/-- C9: for every Inquiry answered by the standard-inquiry path and a
command buffer of at least 36 bytes, the emulator writes exactly the
36-byte response — bytes 2,3,4,7 are 0x05, 0x02, 31, 0x02, bytes 8-15
the vendor ID space-padded or truncated to 8 bytes, bytes 16-31 the
product ID to 16 bytes, bytes 32-35 the revision to 4 bytes, all other
bytes zero — into the command buffer and responds Good. -/
theorem C9_std_inquiry (inq : InquiryInfoM) (id : Nat) (cdbv v : List Nat)
    (hv : 36 ≤ v.length) :
    stdInquiryBuf inq =
      [0, 0, 0x05, 0x02, 31, 0, 0, 0x02] ++ fixedString inq.vendorID 8 ++
        fixedString inq.productID 16 ++ fixedString inq.productRev 4 ∧
    (stdInquiryBuf inq).length = 36 ∧
    ∃ c2 : SCSICmdM,
      emulateStdInquiry ⟨id, cdbv, [v], 0, 0⟩ inq =
        .ok ⟨id, samStatGood, []⟩ c2 ∧
      c2.vecs = [stdInquiryBuf inq ++ v.drop 36] := by
  have hlen : (stdInquiryBuf inq).length = 36 := by
    rw [stdInquiryBuf_eq]
    simp [fixedString_length]
  refine ⟨stdInquiryBuf_eq inq, hlen, ?_⟩
  obtain ⟨adv, off2, hwl⟩ := writeLoop_single_le (stdInquiryBuf inq) v 0
    (by omega)
  have hwr : SCSICmdM.write ⟨id, cdbv, [v], 0, 0⟩ (stdInquiryBuf inq) =
      ((stdInquiryBuf inq).length, false,
        ⟨id, cdbv, [copyInto v 0 (stdInquiryBuf inq)], off2, adv⟩) := by
    unfold SCSICmdM.write
    simp only [List.drop_zero]
    rw [hwl]
    simp
  have hei : emulateStdInquiry ⟨id, cdbv, [v], 0, 0⟩ inq =
      (match SCSICmdM.write ⟨id, cdbv, [v], 0, 0⟩ (stdInquiryBuf inq) with
       | (_, true, _) => EmuResult.goerr
       | (_, false, c2) => EmuResult.ok c2.ok c2) := rfl
  refine ⟨⟨id, cdbv, [copyInto v 0 (stdInquiryBuf inq)], off2, adv⟩, ?_, ?_⟩
  · rw [hei, hwr]
    rfl
  · show [copyInto v 0 _] = _
    rw [copyInto_zero _ _ (by omega), hlen]

/-- C9, witness: the default inquiry data of the source
(`go-tcmu` / `TCMU Device` / `0001` as byte strings) written into a
40-byte buffer. -/
theorem C9_std_inquiry_witness :
    ∃ c2 : SCSICmdM,
      emulateStdInquiry ⟨2, [0x12, 0, 0, 0, 36, 0], [List.replicate 40 9], 0, 0⟩
        ⟨[0x67, 0x6f, 0x2d, 0x74, 0x63, 0x6d, 0x75],
         [0x54, 0x43, 0x4d, 0x55, 0x20, 0x44, 0x65, 0x76, 0x69, 0x63, 0x65],
         [0x30, 0x30, 0x30, 0x31]⟩ =
        .ok ⟨2, samStatGood, []⟩ c2 ∧
      c2.vecs = [[0, 0, 0x05, 0x02, 31, 0, 0, 0x02,
        0x67, 0x6f, 0x2d, 0x74, 0x63, 0x6d, 0x75, 0x20,
        0x54, 0x43, 0x4d, 0x55, 0x20, 0x44, 0x65, 0x76, 0x69, 0x63, 0x65,
        0x20, 0x20, 0x20, 0x20, 0x20,
        0x30, 0x30, 0x30, 0x31, 9, 9, 9, 9]] := by
  obtain ⟨h1, h2, c2, h3, h4⟩ := C9_std_inquiry
    ⟨[0x67, 0x6f, 0x2d, 0x74, 0x63, 0x6d, 0x75],
     [0x54, 0x43, 0x4d, 0x55, 0x20, 0x44, 0x65, 0x76, 0x69, 0x63, 0x65],
     [0x30, 0x30, 0x30, 0x31]⟩ 2 [0x12, 0, 0, 0, 36, 0]
    (List.replicate 40 9) (by decide)
  refine ⟨c2, h3, ?_⟩
  rw [h4, h1]
  rfl

/-! ## C2: Mode Select -/

def c2cmd : SCSICmdM :=
  ⟨5, [0x15, 0x10, 0x08, 0x00, 24, 0],
   [List.replicate 4 0 ++ cachingModePage false], 0, 0⟩

/-- C2: a Mode Select (6) command satisfying every hypothesis of the
claim — allocation length 24 (nonzero, at least header 4 + page 20),
parameter list of 24 bytes (shorter than 512), PF set, SP clear, page
0x08 subpage 0, and the bytes after the 4-byte header equal to the
emulator's own `CachingModePage` output for the same WCE flag — does
NOT get the claimed Good response: `cmd.Read` into the 512-byte scratch
buffer hits `io.EOF` (the vectors hold only 24 bytes) and
`EmulateModeSelect` returns that error. -/
theorem C2_mode_select_eof :
    c2cmd.vecs = [List.replicate 4 0 ++ cachingModePage false] ∧
    xferLenM c2cmd.cdb = some 24 ∧
    24 = 4 + (cachingModePage false).length ∧
    c2cmd.cdb.getD 1 0 &&& 0x10 ≠ 0 ∧ c2cmd.cdb.getD 1 0 &&& 0x01 = 0 ∧
    emulateModeSelect c2cmd false = .goerr := by
  decide

/-! ## C10: partial scatter-gather copies -/

/-- The bytes remaining in the vectors from cursor position
`(off, first vector)` onward: the aggregate buffer the claim's
"remaining capacity" refers to. -/
def vecsFrom : Nat → List (List Nat) → List Nat
  | _, [] => []
  | off, v :: rest => v.drop off ++ vecsFrom 0 rest

theorem readLoop_cons (t off : Nat) (v : List Nat)
    (rest : List (List Nat)) :
    readLoop (t + 1) off (v :: rest) =
      if off + min (v.length - off) (t + 1) = v.length then
        match readLoop ((t + 1) - min (v.length - off) (t + 1)) 0 rest with
        | (out, adv, off2, e) =>
          ((v.drop off).take (min (v.length - off) (t + 1)) ++ out,
           adv + 1, off2, e)
      else
        ((v.drop off).take (min (v.length - off) (t + 1)), 0,
         off + min (v.length - off) (t + 1), false) := rfl

theorem drop_copyInto_exact (v src : List Nat) (off : Nat)
    (hoff : off ≤ v.length) (h : src.length = v.length - off) :
    (copyInto v off src).drop off = src := by
  rw [copyInto_exact _ _ off (by omega)]
  have h2 : v.drop (off + src.length) = [] :=
    List.drop_eq_nil_of_le (by omega)
  rw [h2, List.append_nil]
  have h3 : (v.take off).length = off := by
    rw [List.length_take]
    omega
  rw [List.drop_append_eq_append_drop, h3, Nat.sub_self, List.drop_zero,
      List.drop_eq_nil_of_le (le_of_eq h3), List.nil_append]

/-- C10: writing more bytes than the remaining capacity of the iovec
list copies exactly as many bytes as fit (the mutation is kept, not
rolled back) and returns that count together with the
out-of-buffer-space error; reading past the end of the vectors returns
the bytes copied so far together with io.EOF. -/
theorem C10_partial_copy :
    (∀ (b : List Nat) (off : Nat) (vs : List (List Nat)),
      off ≤ (vs.headD []).length →
      (vecsFrom off vs).length < b.length →
      ∃ vs2 adv off2,
        writeLoop b off vs =
          (vs2, adv, off2, (vecsFrom off vs).length, true) ∧
        vecsFrom off vs2 = b.take (vecsFrom off vs).length ∧
        vs2.map List.length = vs.map List.length) ∧
    (∀ (toRead off : Nat) (vs : List (List Nat)),
      off ≤ (vs.headD []).length →
      (vecsFrom off vs).length < toRead →
      ∃ adv off2,
        readLoop toRead off vs = (vecsFrom off vs, adv, off2, true)) := by
  constructor
  · intro b off vs
    induction vs generalizing b off with
    | nil =>
      intro _ hcap
      cases b with
      | nil => simp [vecsFrom] at hcap
      | cons x bs => exact ⟨[], 0, off, rfl, rfl, rfl⟩
    | cons v rest ih =>
      intro hoff hcap
      simp only [List.headD_cons] at hoff
      have hlen : (vecsFrom off (v :: rest)).length =
          (v.length - off) + (vecsFrom 0 rest).length := by
        show ((v.drop off) ++ vecsFrom 0 rest).length = _
        simp [List.length_drop]
      cases b with
      | nil => rw [hlen] at hcap; simp at hcap
      | cons x bs =>
        rw [writeLoop_cons]
        rw [hlen] at hcap
        simp only [List.length_cons] at hcap
        have hmin : min (v.length - off) (x :: bs).length =
            v.length - off := by
          simp only [List.length_cons]
          omega
        rw [hmin, if_pos (by omega)]
        have hrest : (vecsFrom 0 rest).length <
            ((x :: bs).drop (v.length - off)).length := by
          rw [List.length_drop]
          simp only [List.length_cons]
          omega
        obtain ⟨vs2, adv, off2, h1, h2, h3⟩ :=
          ih ((x :: bs).drop (v.length - off)) 0 (by simp) hrest
        rw [h1]
        refine ⟨copyInto v off ((x :: bs).take (v.length - off)) :: vs2,
          adv + 1, off2, ?_, ?_, ?_⟩
        · show (_, _, _, v.length - off + (vecsFrom 0 rest).length, _) = _
          rw [hlen]
        · show (copyInto v off _).drop off ++ vecsFrom 0 vs2 = _
          rw [h2]
          rw [drop_copyInto_exact _ _ _ hoff (by
            rw [List.length_take]
            simp only [List.length_cons]
            omega)]
          rw [hlen, ← List.take_add]
        · show _ :: vs2.map List.length = _
          rw [h3]
          simp
  · intro toRead off vs
    induction vs generalizing toRead off with
    | nil =>
      intro _ hcap
      cases toRead with
      | zero => simp [vecsFrom] at hcap
      | succ t => exact ⟨0, off, rfl⟩
    | cons v rest ih =>
      intro hoff hcap
      simp only [List.headD_cons] at hoff
      have hlen : (vecsFrom off (v :: rest)).length =
          (v.length - off) + (vecsFrom 0 rest).length := by
        show ((v.drop off) ++ vecsFrom 0 rest).length = _
        simp [List.length_drop]
      cases toRead with
      | zero => rw [hlen] at hcap; simp at hcap
      | succ t =>
        rw [readLoop_cons]
        rw [hlen] at hcap
        have hmin : min (v.length - off) (t + 1) = v.length - off := by
          omega
        rw [hmin, if_pos (by omega)]
        obtain ⟨adv, off2, h1⟩ := ih ((t + 1) - (v.length - off)) 0 (by simp)
          (by omega)
        rw [h1]
        refine ⟨adv + 1, off2, ?_⟩
        show ((v.drop off).take _ ++ vecsFrom 0 rest, _, _, _) = _
        rw [List.take_of_length_le (by simp)]
        rfl

/-- C10, witness: writing 3 bytes into vectors of total capacity 2,
and reading 3 bytes out of vectors holding 2. -/
theorem C10_partial_copy_witness :
    (∃ vs2 adv off2,
      writeLoop [9, 8, 7] 0 [[0], [1]] =
        (vs2, adv, off2, (vecsFrom 0 [[0], [1]]).length, true) ∧
      vecsFrom 0 vs2 = [9, 8, 7].take (vecsFrom 0 [[0], [1]]).length ∧
      vs2.map List.length = [[0], [1]].map List.length) ∧
    (∃ adv off2,
      readLoop 3 0 [[4], [5]] = (vecsFrom 0 [[4], [5]], adv, off2, true)) :=
  ⟨C10_partial_copy.1 [9, 8, 7] 0 [[0], [1]] (by decide) (by decide),
   C10_partial_copy.2 3 0 [[4], [5]] (by decide) (by decide)⟩

/-! ## C6: ring draining

An abstract description of a stretch of the ring between the local
tail and `cmd_head`: a list of pad/cmd entries with their 8-byte-
aligned lengths.  `describeB` checks, directly against the raw memory,
that each entry's header encodes that opcode and length, that cmd
entries decode, and that the walk reaches `cmd_head` exactly at the
end. -/

inductive REntry where
  | pad (len : Nat)
  | cmd (len : Nat)
deriving Repr, DecidableEq

def REntry.len : REntry → Nat
  | .pad l => l
  | .cmd l => l

def describeB (m : Mem) (size cmdrOff head : Nat) :
    Nat → List REntry → Bool
  | tail, [] => tail == head
  | tail, .pad l :: rest =>
    (tail != head) && (entHdrOp m (cmdrOff + tail) == tcmuOpPad) &&
    (entHdrGetLen m (cmdrOff + tail) == l) &&
    describeB m size cmdrOff head ((tail + l) % size) rest
  | tail, .cmd l :: rest =>
    (tail != head) && (entHdrOp m (cmdrOff + tail) == tcmuOpCmd) &&
    (entHdrGetLen m (cmdrOff + tail) == l) &&
    (decodeCmd m (cmdrOff + tail)).isSome &&
    describeB m size cmdrOff head ((tail + l) % size) rest

/-- The commands an entry list denotes: cmd entries decode in ring
order, pad entries produce nothing. -/
def specCmds (m : Mem) (size cmdrOff : Nat) : Nat → List REntry → List SCSICmdM
  | _, [] => []
  | tail, .pad l :: rest => specCmds m size cmdrOff ((tail + l) % size) rest
  | tail, .cmd l :: rest =>
    (decodeCmd m (cmdrOff + tail)).toList ++
      specCmds m size cmdrOff ((tail + l) % size) rest

/-- The local tail after walking the entries: each entry advances it
by its length modulo `cmdr_size`. -/
def finalTail (size : Nat) : Nat → List REntry → Nat
  | tail, [] => tail
  | tail, e :: rest => finalTail size ((tail + e.len) % size) rest

theorem getNextCommandS_mono (fuel : Nat) :
    ∀ (s : DevState) (r : Option SCSICmdM × DevState),
      getNextCommandS fuel s = some r →
      getNextCommandS (fuel + 1) s = some r := by
  induction fuel with
  | zero =>
    intro s r h
    simp [getNextCommandS] at h
  | succ f ih =>
    intro s r h
    rw [getNextCommandS] at h
    rw [getNextCommandS]
    split_ifs at h ⊢ with h1 h2 h3
    · exact h
    · exact ih _ r h
    · cases hdec : decodeCmd s.mem (s.cmdTail + mbCmdrOffset s.mem) with
      | none => rw [hdec] at h; exact absurd h (by simp)
      | some c => rw [hdec] at h; exact h

theorem drainS_mono (fuel : Nat) :
    ∀ (s : DevState) (r : List SCSICmdM × DevState),
      drainS fuel s = some r → drainS (fuel + 1) s = some r := by
  induction fuel with
  | zero =>
    intro s r h
    simp [drainS] at h
  | succ f ih =>
    intro s r h
    rw [drainS] at h
    rw [drainS]
    split at h
    · exact absurd h (by simp)
    · rename_i s2 heq
      rw [getNextCommandS_mono _ _ _ heq]
      exact h
    · rename_i c s2 heq
      rw [getNextCommandS_mono _ _ _ heq]
      split at h
      · exact absurd h (by simp)
      · rename_i cs s3 hd
        show (match drainS (f + 1) s2 with
          | none => none
          | some (cs, s3) => some (c :: cs, s3)) = some r
        rw [ih s2 _ hd]
        exact h

theorem drainS_mono_le {f g : Nat} (hle : f ≤ g) :
    ∀ (s : DevState) (r : List SCSICmdM × DevState),
      drainS f s = some r → drainS g s = some r := by
  induction hle with
  | refl => exact fun s r h => h
  | step h2 ih =>
    intro s r h
    exact drainS_mono _ s r (ih s r h)

/-- C6: draining the ring from the local tail to the head yields
exactly the cmd entries in ring order — each pad entry produces no
command and only advances the local tail by its entry length modulo
`cmdr_size` — and the final local tail is `cmd_head`. -/
theorem C6_ring_drain (m : Mem) (entries : List REntry) (tail fuel : Nat)
    (hd : describeB m (mbCmdrSize m) (mbCmdrOffset m) (mbCmdHead m)
      tail entries = true)
    (hf : entries.length < fuel) :
    drainS fuel ⟨m, tail⟩ =
      some (specCmds m (mbCmdrSize m) (mbCmdrOffset m) tail entries,
            ⟨m, finalTail (mbCmdrSize m) tail entries⟩) ∧
    finalTail (mbCmdrSize m) tail entries = mbCmdHead m := by
  induction entries generalizing tail fuel with
  | nil =>
    have htail : tail = mbCmdHead m := by
      simpa [describeB] using hd
    match fuel, hf with
    | f + 1, _ =>
      constructor
      · rw [drainS]
        rw [show getNextCommandS (f + 1) ⟨m, tail⟩ =
            some (none, ⟨m, tail⟩) by
          rw [getNextCommandS]
          rw [if_pos (by rw [htail])]]
        rfl
      · exact htail
  | cons e rest ih =>
    match fuel, hf with
    | f + 1, hf =>
      have hfr : rest.length < f := by
        simp only [List.length_cons] at hf
        omega
      cases e with
      | pad l =>
        rw [describeB] at hd
        simp only [Bool.and_eq_true, beq_iff_eq, bne_iff_ne] at hd
        obtain ⟨⟨⟨h1, h2⟩, h3⟩, h4⟩ := hd
        obtain ⟨ihd, ihf⟩ := ih ((tail + l) % mbCmdrSize m) f h4 hfr
        have hstep : getNextCommandS (f + 1) ⟨m, tail⟩ =
            getNextCommandS f ⟨m, (tail + l) % mbCmdrSize m⟩ := by
          rw [getNextCommandS]
          rw [if_neg (fun hq => h1 (Nat.add_right_cancel hq))]
          rw [if_pos (by
            show entHdrOp m (tail + mbCmdrOffset m) = tcmuOpPad
            rw [Nat.add_comm tail (mbCmdrOffset m)]
            exact h2)]
          rw [show entHdrGetLen m (tail + mbCmdrOffset m) = l from
            (by rw [Nat.add_comm tail (mbCmdrOffset m)]; exact h3)]
        refine ⟨?_, ihf⟩
        match f, hfr, ihd, hstep with
        | f2 + 1, _, ihd, hstep =>
          rw [drainS, hstep]
          rw [show specCmds m (mbCmdrSize m) (mbCmdrOffset m) tail
              (REntry.pad l :: rest) = specCmds m (mbCmdrSize m)
              (mbCmdrOffset m) ((tail + l) % mbCmdrSize m) rest from rfl]
          rw [show finalTail (mbCmdrSize m) tail (REntry.pad l :: rest) =
              finalTail (mbCmdrSize m) ((tail + l) % mbCmdrSize m) rest
              from rfl]
          rw [drainS] at ihd
          split at ihd
          · exact absurd ihd (by simp)
          · rename_i s2 heq
            exact ihd
          · rename_i c s2 heq
            split at ihd
            · exact absurd ihd (by simp)
            · rename_i cs s3 hdr
              show (match drainS (f2 + 1) s2 with
                | none => none
                | some (cs, s3) => some (c :: cs, s3)) = _
              rw [drainS_mono _ s2 _ hdr]
              exact ihd
      | cmd l =>
        rw [describeB] at hd
        simp only [Bool.and_eq_true, beq_iff_eq, bne_iff_ne] at hd
        obtain ⟨⟨⟨⟨h1, h2⟩, h3⟩, h4⟩, h5⟩ := hd
        obtain ⟨c, hc⟩ := Option.isSome_iff_exists.mp h4
        obtain ⟨ihd, ihf⟩ := ih ((tail + l) % mbCmdrSize m) f h5 hfr
        have hstep : getNextCommandS (f + 1) ⟨m, tail⟩ =
            some (some c, ⟨m, (tail + l) % mbCmdrSize m⟩) := by
          rw [getNextCommandS]
          rw [if_neg (fun hq => h1 (Nat.add_right_cancel hq))]
          rw [if_neg (by
            show ¬ (entHdrOp m (tail + mbCmdrOffset m) = tcmuOpPad)
            rw [Nat.add_comm tail (mbCmdrOffset m), h2]
            simp [tcmuOpPad, tcmuOpCmd])]
          rw [if_pos (by
            show entHdrOp m (tail + mbCmdrOffset m) = tcmuOpCmd
            rw [Nat.add_comm tail (mbCmdrOffset m), h2])]
          rw [show decodeCmd m (tail + mbCmdrOffset m) = some c from
            (by rw [Nat.add_comm tail (mbCmdrOffset m)]; exact hc)]
          rw [show entHdrGetLen m (tail + mbCmdrOffset m) = l from
            (by rw [Nat.add_comm tail (mbCmdrOffset m)]; exact h3)]
        refine ⟨?_, ihf⟩
        rw [drainS, hstep]
        show (match drainS f ⟨m, (tail + l) % mbCmdrSize m⟩ with
          | none => none
          | some (cs, s3) => some (c :: cs, s3)) = _
        rw [ihd]
        rw [show specCmds m (mbCmdrSize m) (mbCmdrOffset m) tail
            (REntry.cmd l :: rest) =
            (decodeCmd m (mbCmdrOffset m + tail)).toList ++
            specCmds m (mbCmdrSize m) (mbCmdrOffset m)
              ((tail + l) % mbCmdrSize m) rest from rfl]
        rw [show finalTail (mbCmdrSize m) tail (REntry.cmd l :: rest) =
            finalTail (mbCmdrSize m) ((tail + l) % mbCmdrSize m) rest
            from rfl]
        rw [hc]
        rfl

/-- C6, witness: a concrete mailbox whose ring holds
`[pad(16), cmd(48), pad(16), cmd(48)]` between tail 0 and head 128
(`cmdr_size = 256`): draining yields exactly the two commands (ids 7
and 9) and the local tail advances to `(0 + 128) % 256 = 128`. -/
def m6 : Mem := fun a =>
  if a = 4 then 128 else if a = 9 then 1 else if a = 12 then 128
  else if a = 128 then 16 else if a = 144 then 49 else if a = 148 then 7
  else if a = 168 then 16 else if a = 192 then 16 else if a = 208 then 49
  else if a = 212 then 9 else if a = 232 then 16 else 0

theorem C6_ring_drain_witness :
    (drainS 5 ⟨m6, 0⟩).map (fun p => (p.1, p.2.cmdTail)) =
      some ([⟨7, [0, 0, 0, 0, 0, 0], [], 0, 0⟩,
             ⟨9, [0, 0, 0, 0, 0, 0], [], 0, 0⟩], 128) ∧
    (0 + 128) % mbCmdrSize m6 = 128 := by
  have h := C6_ring_drain m6
    [.pad 16, .cmd 48, .pad 16, .cmd 48] 0 5 (by decide) (by decide)
  rw [h.1]
  exact ⟨by decide, by decide⟩

/-! ## C7: the ring reader never writes the shared mmap -/

/-- C7: `getNextCommand` (and the drain loop built on it) never
modifies any byte of the shared mmap — in particular not the shared
`cmd_tail` word at mailbox offset 64; its only state change is the
Device's private local tail.  (That the completion path does update the
shared `cmd_tail` is the tail-advance conclusion of the C4 theorem.) -/
theorem C7_reader_frame :
    ∀ (fuel : Nat) (s : DevState),
      ((getNextCommandS fuel s).map (fun r => r.2.mem)).getD s.mem = s.mem ∧
      ((drainS fuel s).map (fun r => r.2.mem)).getD s.mem = s.mem := by
  have hg : ∀ (fuel : Nat) (s : DevState),
      ((getNextCommandS fuel s).map (fun r => r.2.mem)).getD s.mem =
        s.mem := by
    intro fuel
    induction fuel with
    | zero => intro s; rfl
    | succ f ih =>
      intro s
      rw [getNextCommandS]
      split_ifs with h1 h2 h3
      · rfl
      · exact ih _
      · cases hdec : decodeCmd s.mem (s.cmdTail + mbCmdrOffset s.mem) with
        | none => rfl
        | some c => rfl
      · rfl
  intro fuel s
  refine ⟨hg fuel s, ?_⟩
  induction fuel generalizing s with
  | zero => rfl
  | succ f ih =>
    rw [drainS]
    cases hgs : getNextCommandS (f + 1) s with
    | none => rfl
    | some p =>
      obtain ⟨oc, s2⟩ := p
      have hmem : s2.mem = s.mem := by
        have := hg (f + 1) s
        rw [hgs] at this
        simpa using this
      cases oc with
      | none => simpa using hmem
      | some c =>
        show (Option.map (fun r => r.2.mem)
          (match drainS f s2 with
           | none => none
           | some (cs, s3) => some (c :: cs, s3))).getD s.mem = s.mem
        cases hdr : drainS f s2 with
        | none => rfl
        | some q =>
          obtain ⟨cs, s3⟩ := q
          have h2 := ih s2
          rw [hdr] at h2
          simp at h2
          show s3.mem = s.mem
          rw [h2, hmem]

/-! ## C4: memory-write lemmas -/

theorem write8_apply (m : Mem) (a v x : Nat) :
    write8 m a v x = if x = a then v % 256 else m x := rfl

theorem write16_apply (m : Mem) (a v x : Nat) :
    write16 m a v x =
      if x = a then v % 256 else if x = a + 1 then v / 256 % 256
      else m x := by
  unfold write16 write8
  split_ifs <;> first | rfl | omega

theorem write32_apply (m : Mem) (a v x : Nat) :
    write32 m a v x =
      if x = a then v % 256 else if x = a + 1 then v / 256 % 256
      else if x = a + 2 then v / 65536 % 256
      else if x = a + 3 then v / 16777216 % 256 else m x := by
  unfold write32 write8
  split_ifs <;> first | rfl | omega

theorem read16_congr (m m' : Mem) (a : Nat) (h0 : m' a = m a)
    (h1 : m' (a + 1) = m (a + 1)) : read16 m' a = read16 m a := by
  rw [read16, read16, h0, h1]

theorem read32_congr (m m' : Mem) (a : Nat) (h0 : m' a = m a)
    (h1 : m' (a + 1) = m (a + 1)) (h2 : m' (a + 2) = m (a + 2))
    (h3 : m' (a + 3) = m (a + 3)) : read32 m' a = read32 m a := by
  rw [read32, read32, h0, h1, h2, h3]

theorem read32_write32_same (m : Mem) (a v : Nat) :
    read32 (write32 m a v) a = v % 4294967296 := by
  have b0 : write32 m a v a = v % 256 := by
    rw [write32_apply, if_pos rfl]
  have b1 : write32 m a v (a + 1) = v / 256 % 256 := by
    rw [write32_apply, if_neg (by omega), if_pos rfl]
  have b2 : write32 m a v (a + 2) = v / 65536 % 256 := by
    rw [write32_apply, if_neg (by omega), if_neg (by omega), if_pos rfl]
  have b3 : write32 m a v (a + 3) = v / 16777216 % 256 := by
    rw [write32_apply, if_neg (by omega), if_neg (by omega),
      if_neg (by omega), if_pos rfl]
  rw [read32, b0, b1, b2, b3]
  omega

theorem read32_lt (m : Mem) (a : Nat) (hw : ∀ x, m x < 256) :
    read32 m a < 4294967296 := by
  have h0 := hw a
  have h1 := hw (a + 1)
  have h2 := hw (a + 2)
  have h3 := hw (a + 3)
  rw [read32]
  omega

theorem read16_lt (m : Mem) (a : Nat) (hw : ∀ x, m x < 256) :
    read16 m a < 65536 := by
  have h0 := hw a
  have h1 := hw (a + 1)
  rw [read16]
  omega

theorem wf_write32 (m : Mem) (a v : Nat) (hw : ∀ x, m x < 256) :
    ∀ x, write32 m a v x < 256 := by
  intro x
  rw [write32_apply]
  split_ifs <;> first | omega | exact hw x

theorem wf_write16 (m : Mem) (a v : Nat) (hw : ∀ x, m x < 256) :
    ∀ x, write16 m a v x < 256 := by
  intro x
  rw [write16_apply]
  split_ifs <;> first | omega | exact hw x

theorem write32_outside (m : Mem) (a v x : Nat)
    (h : x < a ∨ a + 4 ≤ x) : write32 m a v x = m x := by
  rw [write32_apply]
  split_ifs <;> first | rfl | omega

/-- Mailbox agreement outside the shared-tail word: the four fields
read by the completion path. -/
theorem mb_reads_of_agree (m m' : Mem)
    (h : ∀ a, a < 64 ∨ 68 ≤ a → m' a = m a) :
    mbCmdrOffset m' = mbCmdrOffset m ∧ mbCmdrSize m' = mbCmdrSize m ∧
      mbCmdHead m' = mbCmdHead m := by
  refine ⟨?_, ?_, ?_⟩ <;>
    exact read32_congr _ _ _ (h _ (by omega)) (h _ (by omega))
      (h _ (by omega)) (h _ (by omega))

/-- The pad entries the completion loop walks over: `PadsThen m off0
size tail t2 k` says that starting from ring offset `tail` the entry
headers of `m` are `k` non-cmd entries followed by a cmd entry at
offset `t2`, each advancing the tail by its header length modulo
`size`. -/
inductive PadsThen (m : Mem) (off0 size : Nat) : Nat → Nat → Nat → Prop
  | here (tail : Nat) :
      entHdrOp m (tail + off0) = tcmuOpCmd → PadsThen m off0 size tail tail 0
  | pad (tail t2 k : Nat) :
      entHdrOp m (tail + off0) ≠ tcmuOpCmd →
      PadsThen m off0 size ((tail + entHdrGetLen m (tail + off0)) % size)
        t2 k →
      PadsThen m off0 size tail t2 (k + 1)

/-- The completion path's pad loop: advances the shared tail past each
non-cmd entry, touching only the shared-tail word (bytes 64-67). -/
theorem skipPads_spec (m : Mem) (hw : ∀ a, m a < 256)
    (h68 : 68 ≤ mbCmdrOffset m) (hsz : 0 < mbCmdrSize m)
    {tail t2 k : Nat}
    (hp : PadsThen m (mbCmdrOffset m) (mbCmdrSize m) tail t2 k) :
    ∀ (m' : Mem), (∀ a, a < 64 ∨ 68 ≤ a → m' a = m a) →
      (∀ a, m' a < 256) → mbCmdTail m' = tail →
    ∀ (fuel : Nat), k < fuel →
    ∃ m1, skipPads fuel m' = some m1 ∧
      (∀ a, a < 64 ∨ 68 ≤ a → m1 a = m a) ∧
      (∀ a, m1 a < 256) ∧ mbCmdTail m1 = t2 := by
  induction hp with
  | here tl hop =>
    intro m' hagree hw' htail fuel hf
    match fuel, hf with
    | f + 1, _ =>
      obtain ⟨ho, hs, hh⟩ := mb_reads_of_agree m m' hagree
      have hcond : entHdrOp m' (mbCmdTail m' + mbCmdrOffset m') =
          tcmuOpCmd := by
        rw [htail, ho]
        rw [show entHdrOp m' (tl + mbCmdrOffset m) =
            entHdrOp m (tl + mbCmdrOffset m) from by
          unfold entHdrOp offLenOp
          rw [read32_congr m m' _ (hagree _ (by omega)) (hagree _ (by omega))
            (hagree _ (by omega)) (hagree _ (by omega))]]
        exact hop
      rw [skipPads, if_pos hcond]
      exact ⟨m', rfl, hagree, hw', htail.trans rfl⟩
  | pad tl t2x kx hop _ ih =>
    intro m' hagree hw' htail fuel hf
    match fuel, hf with
    | f + 1, hf =>
      obtain ⟨ho, hs, hh⟩ := mb_reads_of_agree m m' hagree
      have hople : entHdrOp m' (mbCmdTail m' + mbCmdrOffset m') =
          entHdrOp m (tl + mbCmdrOffset m) := by
        rw [htail, ho]
        unfold entHdrOp offLenOp
        rw [read32_congr m m' _ (hagree _ (by omega)) (hagree _ (by omega))
          (hagree _ (by omega)) (hagree _ (by omega))]
      have hlenle : entHdrGetLen m' (mbCmdTail m' + mbCmdrOffset m') =
          entHdrGetLen m (tl + mbCmdrOffset m) := by
        rw [htail, ho]
        unfold entHdrGetLen offLenOp
        rw [read32_congr m m' _ (hagree _ (by omega)) (hagree _ (by omega))
          (hagree _ (by omega)) (hagree _ (by omega))]
      have hcond : ¬ (entHdrOp m' (mbCmdTail m' + mbCmdrOffset m') =
          tcmuOpCmd) := by
        rw [hople]
        exact hop
      rw [skipPads, if_neg hcond]
      have hv : (mbCmdTail m' + entHdrGetLen m'
          (mbCmdTail m' + mbCmdrOffset m')) % mbCmdrSize m' =
          (tl + entHdrGetLen m (tl + mbCmdrOffset m)) % mbCmdrSize m := by
        rw [hlenle, htail, hs]
      have hsize : mbCmdrSize m < 4294967296 := read32_lt m 8 hw
      have hnewtail : mbCmdTail (mbSetTail m' ((mbCmdTail m' +
          entHdrGetLen m' (mbCmdTail m' + mbCmdrOffset m')) %
          mbCmdrSize m')) =
          (tl + entHdrGetLen m (tl + mbCmdrOffset m)) % mbCmdrSize m := by
        show read32 (write32 m' 64 ((mbCmdTail m' + entHdrGetLen m'
          (mbCmdTail m' + mbCmdrOffset m')) % mbCmdrSize m')) 64 = _
        rw [read32_write32_same, hv]
        have hlt : (tl + entHdrGetLen m (tl + mbCmdrOffset m)) %
            mbCmdrSize m < mbCmdrSize m := Nat.mod_lt _ hsz
        omega
      refine ih (mbSetTail m' _) ?_ ?_ hnewtail f (by omega)
      · intro a ha
        unfold mbSetTail
        rw [write32_outside _ _ _ _ (by omega)]
        exact hagree a ha
      · intro a
        exact wf_write32 _ _ _ hw' a

/-- C4, amended: for every completed response, the completion path
advances the shared `cmd_tail` past any pad entries to the first cmd
entry, overwrites that entry's `cmd_id` only when it differs from the
response id, writes the SCSI status byte, copies up to 96 bytes of
sense data into the entry's sense buffer zero-padding the unused tail
only when the status is non-zero, advances the shared `cmd_tail` past
the entry modulo `cmdr_size`, and then writes a 4-BYTE buffer (not a
single byte) to the userspace-I/O file descriptor to notify the
kernel. -/
theorem C4_completion (m : Mem) (resp : SCSIRespM) (fuel k t2 : Nat)
    (hw : ∀ a, m a < 256)
    (h68 : 68 ≤ mbCmdrOffset m)
    (hsz : 0 < mbCmdrSize m)
    (hp : PadsThen m (mbCmdrOffset m) (mbCmdrSize m) (mbCmdTail m) t2 k)
    (hk : k < fuel)
    (hst : resp.status < 256) (hid : resp.id < 65536)
    (hsb : ∀ b ∈ resp.senseBuffer, b < 256) :
    ∃ mf, recvStep fuel m resp =
        some (mf, !(entCmdId m (t2 + mbCmdrOffset m) == resp.id), 4) ∧
      mbCmdTail mf =
        (t2 + entHdrGetLen m (t2 + mbCmdrOffset m)) % mbCmdrSize m ∧
      read16 mf (t2 + mbCmdrOffset m + offCmdId) = resp.id ∧
      mf (t2 + mbCmdrOffset m + offRespSCSIStatus) = resp.status ∧
      (resp.status ≠ samStatGood → ∀ i, i < 96 →
        mf (t2 + mbCmdrOffset m + offRespSense + i) =
          resp.senseBuffer.getD i 0) ∧
      (resp.status = samStatGood → ∀ i, i < 96 →
        mf (t2 + mbCmdrOffset m + offRespSense + i) =
          m (t2 + mbCmdrOffset m + offRespSense + i)) := by
  obtain ⟨m1, hskip, hagree, hw1, htail1⟩ :=
    skipPads_spec m hw h68 hsz hp m (fun _ _ => rfl) hw rfl fuel hk
  obtain ⟨ho1, hs1, _⟩ := mb_reads_of_agree m m1 hagree
  have hoff : mbCmdTail m1 + mbCmdrOffset m1 = t2 + mbCmdrOffset m := by
    rw [htail1, ho1]
  have e2 : offCmdId = 4 := rfl
  have e8 : offRespSCSIStatus = 8 := rfl
  have e16 : offRespSense = 16 := rfl
  have e96 : tcmuSenseBufferSize = 96 := rfl
  have hO68 : 68 ≤ t2 + mbCmdrOffset m := by omega
  have hagreeO : ∀ i, m1 (t2 + mbCmdrOffset m + i) =
      m (t2 + mbCmdrOffset m + i) := fun i => hagree _ (by omega)
  have hidm1 : entCmdId m1 (t2 + mbCmdrOffset m) =
      entCmdId m (t2 + mbCmdrOffset m) := by
    unfold entCmdId
    rw [e2]
    exact read16_congr _ _ _ (hagreeO 4) (by
      rw [show t2 + mbCmdrOffset m + 4 + 1 = t2 + mbCmdrOffset m + 5 from
        rfl]
      exact hagreeO 5)
  have hrs : recvStep fuel m resp =
      some (completeEntry m1 (t2 + mbCmdrOffset m) resp,
        !(entCmdId m (t2 + mbCmdrOffset m) == resp.id), 4) := by
    unfold recvStep completeCommand
    rw [hskip]
    show some (completeEntry m1 (mbCmdTail m1 + mbCmdrOffset m1) resp,
      !(entCmdId m1 (mbCmdTail m1 + mbCmdrOffset m1) == resp.id), 4) = _
    rw [hoff, hidm1]
  -- Byte-level characterization of the entry updates.
  have hA := maybeSetId m1 (t2 + mbCmdrOffset m) resp.id
  have hAother : ∀ x, x ≠ t2 + mbCmdrOffset m + 4 →
      x ≠ t2 + mbCmdrOffset m + 5 →
      maybeSetId m1 (t2 + mbCmdrOffset m) resp.id x = m1 x := by
    intro x hx4 hx5
    unfold maybeSetId
    split_ifs with he
    · rfl
    · unfold setEntCmdId
      rw [e2, write16_apply]
      rw [if_neg hx4, if_neg (by omega)]
  have hA4 : maybeSetId m1 (t2 + mbCmdrOffset m) resp.id
      (t2 + mbCmdrOffset m + 4) = resp.id % 256 := by
    unfold maybeSetId
    split_ifs with he
    · have hb4 := hw1 (t2 + mbCmdrOffset m + 4)
      have hb5 := hw1 (t2 + mbCmdrOffset m + 5)
      have heq : m1 (t2 + mbCmdrOffset m + 4) +
          256 * m1 (t2 + mbCmdrOffset m + 4 + 1) = resp.id := he
      rw [show t2 + mbCmdrOffset m + 4 + 1 = t2 + mbCmdrOffset m + 5 from
        rfl] at heq
      omega
    · unfold setEntCmdId
      rw [e2, write16_apply, if_pos rfl]
  have hA5 : maybeSetId m1 (t2 + mbCmdrOffset m) resp.id
      (t2 + mbCmdrOffset m + 5) = resp.id / 256 % 256 := by
    unfold maybeSetId
    split_ifs with he
    · have hb4 := hw1 (t2 + mbCmdrOffset m + 4)
      have hb5 := hw1 (t2 + mbCmdrOffset m + 5)
      have heq : m1 (t2 + mbCmdrOffset m + 4) +
          256 * m1 (t2 + mbCmdrOffset m + 4 + 1) = resp.id := he
      rw [show t2 + mbCmdrOffset m + 4 + 1 = t2 + mbCmdrOffset m + 5 from
        rfl] at heq
      omega
    · unfold setEntCmdId
      rw [e2, write16_apply, if_neg (by omega), if_pos (by omega)]
  have hBother : ∀ x, x ≠ t2 + mbCmdrOffset m + 8 →
      setEntRespSCSIStatus (maybeSetId m1 (t2 + mbCmdrOffset m) resp.id)
        (t2 + mbCmdrOffset m) resp.status x =
      maybeSetId m1 (t2 + mbCmdrOffset m) resp.id x := by
    intro x hx
    unfold setEntRespSCSIStatus
    rw [e8, write8_apply, if_neg hx]
  have hB8 : setEntRespSCSIStatus (maybeSetId m1 (t2 + mbCmdrOffset m)
      resp.id) (t2 + mbCmdrOffset m) resp.status
      (t2 + mbCmdrOffset m + 8) = resp.status % 256 := by
    unfold setEntRespSCSIStatus
    rw [e8, write8_apply, if_pos rfl]
  have hCout : ∀ x, ¬ (t2 + mbCmdrOffset m + 16 ≤ x ∧
      x < t2 + mbCmdrOffset m + 16 + 96) →
      writeSense (setEntRespSCSIStatus (maybeSetId m1
        (t2 + mbCmdrOffset m) resp.id) (t2 + mbCmdrOffset m) resp.status)
        (t2 + mbCmdrOffset m) resp x =
      setEntRespSCSIStatus (maybeSetId m1 (t2 + mbCmdrOffset m) resp.id)
        (t2 + mbCmdrOffset m) resp.status x := by
    intro x hx
    unfold writeSense
    split_ifs with hg
    · rfl
    · unfold copyEntRespSenseData
      rw [e16, e96]
      rw [if_neg hx]
  have hlow : ∀ x, x < 68 →
      writeSense (setEntRespSCSIStatus (maybeSetId m1
        (t2 + mbCmdrOffset m) resp.id) (t2 + mbCmdrOffset m) resp.status)
        (t2 + mbCmdrOffset m) resp x = m1 x := by
    intro x hx
    rw [hCout x (by omega), hBother x (by omega),
      hAother x (by omega) (by omega)]
  have hsizeC : mbCmdrSize (writeSense (setEntRespSCSIStatus (maybeSetId
      m1 (t2 + mbCmdrOffset m) resp.id) (t2 + mbCmdrOffset m)
      resp.status) (t2 + mbCmdrOffset m) resp) = mbCmdrSize m := by
    unfold mbCmdrSize
    rw [read32_congr _ _ _ (hlow _ (by omega)) (hlow _ (by omega))
      (hlow _ (by omega)) (hlow _ (by omega))]
    exact read32_congr _ _ _ (hagree _ (by omega)) (hagree _ (by omega))
      (hagree _ (by omega)) (hagree _ (by omega))
  have htailC : mbCmdTail (writeSense (setEntRespSCSIStatus (maybeSetId
      m1 (t2 + mbCmdrOffset m) resp.id) (t2 + mbCmdrOffset m)
      resp.status) (t2 + mbCmdrOffset m) resp) = t2 := by
    unfold mbCmdTail
    rw [read32_congr _ _ _ (hlow _ (by omega)) (hlow _ (by omega))
      (hlow _ (by omega)) (hlow _ (by omega))]
    exact htail1
  have hentry : ∀ i, i < 4 →
      writeSense (setEntRespSCSIStatus (maybeSetId m1
        (t2 + mbCmdrOffset m) resp.id) (t2 + mbCmdrOffset m) resp.status)
        (t2 + mbCmdrOffset m) resp (t2 + mbCmdrOffset m + i) =
      m (t2 + mbCmdrOffset m + i) := by
    intro i hi
    rw [hCout _ (by omega), hBother _ (by omega),
      hAother _ (by omega) (by omega)]
    exact hagreeO i
  have hlenC : entHdrGetLen (writeSense (setEntRespSCSIStatus (maybeSetId
      m1 (t2 + mbCmdrOffset m) resp.id) (t2 + mbCmdrOffset m)
      resp.status) (t2 + mbCmdrOffset m) resp) (t2 + mbCmdrOffset m) =
      entHdrGetLen m (t2 + mbCmdrOffset m) := by
    unfold entHdrGetLen offLenOp
    congr 2
    exact read32_congr _ _ _
      (by rw [show t2 + mbCmdrOffset m + 0 = t2 + mbCmdrOffset m + 0 from
        rfl]; exact hentry 0 (by omega))
      (hentry 1 (by omega)) (hentry 2 (by omega)) (hentry 3 (by omega))
  have hVlt : (t2 + entHdrGetLen m (t2 + mbCmdrOffset m)) % mbCmdrSize m <
      mbCmdrSize m := Nat.mod_lt _ hsz
  have hsize32 : mbCmdrSize m < 4294967296 := read32_lt m 8 hw
  -- The final state.
  refine ⟨completeEntry m1 (t2 + mbCmdrOffset m) resp, hrs, ?_, ?_, ?_,
    ?_, ?_⟩
  · show mbCmdTail (advanceSharedTail _ _) = _
    unfold advanceSharedTail
    rw [htailC, hlenC, hsizeC]
    show read32 (write32 _ 64 _) 64 = _
    rw [read32_write32_same]
    omega
  · show read16 (advanceSharedTail _ _) _ = _
    unfold advanceSharedTail mbSetTail
    rw [read16_congr _ _ _
      (write32_outside _ _ _ _ (by omega)) (write32_outside _ _ _ _ (by omega))]
    rw [e2]
    unfold read16
    rw [hCout _ (by omega), hBother _ (by omega), hA4]
    rw [show t2 + mbCmdrOffset m + 4 + 1 = t2 + mbCmdrOffset m + 5 from rfl]
    rw [hCout _ (by omega), hBother _ (by omega), hA5]
    omega
  · show advanceSharedTail _ _ _ = _
    unfold advanceSharedTail mbSetTail
    rw [write32_outside _ _ _ _ (by omega)]
    rw [e8]
    rw [hCout _ (by omega), hB8]
    omega
  · intro hne i hi
    show advanceSharedTail _ _ _ = _
    unfold advanceSharedTail mbSetTail
    rw [write32_outside _ _ _ _ (by omega)]
    rw [e16]
    show writeSense _ _ _ _ = _
    unfold writeSense
    rw [if_neg hne]
    unfold copyEntRespSenseData
    rw [e16, e96]
    rw [if_pos (by omega)]
    rw [show t2 + mbCmdrOffset m + 16 + i - (t2 + mbCmdrOffset m + 16) =
      i from by omega]
    have := getD_lt_of_all_lt resp.senseBuffer i hsb
    omega
  · intro hgood i hi
    show advanceSharedTail _ _ _ = _
    unfold advanceSharedTail mbSetTail
    rw [write32_outside _ _ _ _ (by omega)]
    rw [e16]
    show writeSense _ _ _ _ = _
    unfold writeSense
    rw [if_pos hgood]
    rw [hBother _ (by omega), hAother _ (by omega) (by omega)]
    exact hagree _ (by omega)

/-- A concrete mailbox for the C4 instance: `cmdr_offset = 68`,
`cmdr_size = 256`, `cmd_head = 48`, shared `cmd_tail = 0`, and one cmd
entry of length 48 with `cmd_id = 5` at the tail. -/
def m4w : Mem := fun a =>
  if a = 4 then 68 else if a = 9 then 1 else if a = 12 then 48
  else if a = 68 then 49 else if a = 72 then 5 else 0

/-- C4, counterexample to the claim as stated: the completion path's
kernel notification hands a 4-byte buffer to the fd write
(`buf := make([]byte, 4)` in `recvResponse`), not a single byte. -/
theorem C4_counterexample :
    ((recvStep 1 m4w ⟨5, 2, [7, 8, 9]⟩).map fun r => r.2.2) = some 4 ∧
    (4 : Nat) ≠ 1 := by
  exact ⟨rfl, by decide⟩

/-- C4, witness for the amended theorem: completing response id 5 with
status 2 and sense `[7,8,9]` against `m4w` advances the shared tail to
48, leaves `cmd_id = 5`, stores the status byte, copies the sense data
zero-padded, and notifies with 4 bytes. -/
theorem C4_completion_witness :
    ∃ mf, recvStep 1 m4w ⟨5, 2, [7, 8, 9]⟩ = some (mf, false, 4) ∧
      mbCmdTail mf = 48 ∧
      read16 mf (0 + mbCmdrOffset m4w + offCmdId) = 5 ∧
      mf (0 + mbCmdrOffset m4w + offRespSCSIStatus) = 2 ∧
      mf (0 + mbCmdrOffset m4w + offRespSense + 0) = 7 ∧
      mf (0 + mbCmdrOffset m4w + offRespSense + 3) = 0 := by
  have hw : ∀ a, m4w a < 256 := by
    intro a
    unfold m4w
    split_ifs <;> omega
  obtain ⟨mf, h1, h2, h3, h4, h5, _⟩ :=
    C4_completion m4w ⟨5, 2, [7, 8, 9]⟩ 1 0 0 hw (by decide) (by decide)
      (PadsThen.here _ (by decide)) (by decide) (by decide) (by decide)
      (by decide)
  refine ⟨mf, ?_, ?_, h3, h4, ?_, ?_⟩
  · rw [h1]
    rw [show (!(entCmdId m4w (0 + mbCmdrOffset m4w) == (5 : Nat))) = false
      from by decide]
  · exact h2.trans (by decide)
  · exact (h5 (by decide) 0 (by decide)).trans (by decide)
  · exact (h5 (by decide) 3 (by decide)).trans (by decide)

end Tcmu
